import Mathlib

/-!
Verification of the seismic_data_loading repository (SEG-Y loading and
chunking modules).  The Python sources are shallowly embedded: machine
floats are idealised as rationals, numpy arrays as lists, exceptions as
an explicit error type.  Each embedded definition mirrors one Python
function of src/data_loading.py, src/data_divide.py or
src/header_loading.py; kept helper functions model the Python and numpy
primitives the source uses (range, list slicing, int truncation,
negative-index lookup, strided views, row assignment broadcasting).
-/

namespace Seismic

/-- Python exceptions raised by the modules or by the libraries they call.
The modules raise ValueError with a message; segyio raises IndexError for a
bad trace index and an IOError when a closed file handle is read. -/
inductive PyErr where
  | valueError (msg : String)
  | indexError (msg : String)
  | ioError (msg : String)
  deriving DecidableEq

/-- Message of the ValueError raised when the file attribute is None. -/
def notOpenMsg : String := "파일이 열리지 않았습니다."

/-- Message of the ValueError raised by load_trace for an out-of-range index;
the Python f-string interpolates total_traces - 1. -/
def traceIdxMsg (total : Nat) : String :=
  "트레이스 인덱스가 범위를 벗어났습니다. (0 ~ " ++ toString ((total : Int) - 1) ++ ")"

/-- Message of the ValueError raised by load_traces for a bad start index. -/
def startTraceMsg : String := "시작 트레이스 인덱스가 범위를 벗어났습니다."

/-- Message of the ValueError raised by load_traces for a bad end index. -/
def endTraceMsg : String := "종료 트레이스 인덱스가 올바르지 않습니다."

/-- Message of the ValueError raised by load_depth_slice for a bad start sample. -/
def startSampleMsg : String := "시작 샘플 인덱스가 범위를 벗어났습니다."

/-- Message of the ValueError raised by load_depth_slice for a bad end sample. -/
def endSampleMsg : String := "종료 샘플 인덱스가 올바르지 않습니다."

/-- Message of the ValueError raised by divide_by_traces for a non-positive size. -/
def chunkSizeMsg : String := "청크당 트레이스 수는 양수여야 합니다."

/-- Message of the ValueError raised by divide_by_depth for a non-positive interval. -/
def depthIntervalMsg : String := "깊이 간격은 양수여야 합니다."

/-- Message of the IOError segyio raises when a closed handle is read. -/
def closedFileMsg : String := "I/O operation on closed file"

/-- Message of the ValueError numpy raises for np.zeros with a negative shape. -/
def negativeDimMsg : String := "negative dimensions are not allowed"

/-- Message of the ValueError numpy raises on a shape-mismatched row assignment. -/
def broadcastMsg : String := "could not broadcast input array"

/-- Python range(start, stop) with implicit step 1 over machine integers. -/
def intRange (start stop : Int) : List Int :=
  (List.range (stop - start).toNat).map (fun (k : Nat) => start + (k : Int))

/-- Python and numpy one-dimensional slice l[s:e]: negative endpoints count
from the end of the list, both endpoints are then clamped into [0, len],
and an empty slice results when the normalised start is not below the end. -/
def pySlice (l : List Int) (s e : Int) : List Int :=
  let n : Int := l.length
  let s1 : Int := max 0 (min n (if s < 0 then s + n else s))
  let e1 : Int := max 0 (min n (if e < 0 then e + n else e))
  (l.drop s1.toNat).take (e1.toNat - s1.toNat)

/-- Python int() applied to a float: truncation toward zero. -/
def pyInt (q : ℚ) : Int :=
  if 0 ≤ q then ⌊q⌋ else ⌈q⌉

/-- Round-half-to-even on a rational, the tie rule of Python round(). -/
def roundHalfEven (q : ℚ) : Int :=
  let f := ⌊q⌋
  let r := q - (f : ℚ)
  if r < 1 / 2 then f
  else if 1 / 2 < r then f + 1
  else if f % 2 = 0 then f else f + 1

/-- Python round(x, 2): round to two decimal places, ties to even. -/
def pyRound2 (q : ℚ) : ℚ :=
  (roundHalfEven (q * 100) : ℚ) / 100

/-- Numpy row assignment data[i] = row into a row of width w: the shapes
must match, except that a one-element array broadcasts across the row. -/
def npRowAssign (w : Nat) (row : List Int) : Except PyErr (List Int) :=
  if row.length = w then .ok row
  else
    match row with
    | [v] => .ok (List.replicate w v)
    | _ => .error (.valueError broadcastMsg)

/-- Numpy strided view arr[::step] over the rows of a matrix, for step ≥ 1:
the rows at indices 0, step, 2·step, ..., in order. -/
def npStrideRows (l : List (List Int)) (step : Nat) : List (List Int) :=
  (List.range ((l.length + step - 1) / step)).map (fun k => l.getD (k * step) [])

/-- Loop shared by divide_by_traces and divide_by_depth: for start in
range(0, total, c): append (start, min(start + c, total)).  The fuel
argument only bounds the recursion; fuel = total suffices when c ≥ 1. -/
def divideLoop : Nat → Nat → Nat → Nat → List (Nat × Nat)
  | 0, _, _, _ => []
  | fuel + 1, start, total, c =>
    if start < total then
      (start, min (start + c) total) :: divideLoop fuel (start + c) total c
    else []

/-- In-memory model of an open SEG-Y file as segyio presents it: the decoded
trace sample arrays (sample values idealised as integers since every claim
treats them opaquely) and the binary-header fields the modules read. -/
structure SegyFileData where
  traces : List (List Int)
  binSamples : Nat
  binIntervalUs : ℚ
  binFormat : Int
  binMeasurement : Int
  deriving DecidableEq

/-- A segyio file handle: the underlying data plus a closed flag.  The
segyio.SegyFile object defines no truth-value hooks, so the handle is
truthy in Python whether or not it has been closed. -/
structure PyHandle where
  data : SegyFileData
  isClosed : Bool
  deriving DecidableEq

/-- Lookup file.trace[i] on the list of traces: segyio supports one round of
negative-index wrap-around like a Python sequence, then bounds-checks. -/
def pyTraceGet (traces : List (List Int)) (i : Int) : Except PyErr (List Int) :=
  let n : Int := traces.length
  let j : Int := if i < 0 then i + n else i
  if 0 ≤ j ∧ j < n then .ok (traces.getD j.toNat [])
  else .error (.indexError "trace index out of range")

/-- Reading file.trace[i] through a handle: a closed handle raises IOError
from the underlying file descriptor before any index handling. -/
def segyioTraceGet (h : PyHandle) (i : Int) : Except PyErr (List Int) :=
  if h.isClosed then .error (.ioError closedFileMsg)
  else pyTraceGet h.data.traces i

/-- Attribute state of an SEGYDataLoader object (data_loading.py): the file
handle and the three values cached by the context-manager entry.  All four
attributes are None right after construction. -/
structure LoaderState where
  file : Option PyHandle
  cachedTotal : Option Nat
  cachedSamples : Option Nat
  cachedInterval : Option ℚ
  deriving DecidableEq

/-- SEGYDataLoader.__init__: every attribute starts as None. -/
def loaderInit : LoaderState := ⟨none, none, none, none⟩

/-- SEGYDataLoader.__enter__ on file f: opens the handle and caches
len(file.trace), bin[Samples] and bin[Interval] / 1000 (ms). -/
def loaderEnter (f : SegyFileData) : LoaderState :=
  ⟨some ⟨f, false⟩, some f.traces.length, some f.binSamples, some (f.binIntervalUs / 1000)⟩

/-- SEGYDataLoader.__exit__: closes the handle when one is present; the
file attribute keeps pointing at the (now closed) handle. -/
def loaderExit (st : LoaderState) : LoaderState :=
  { st with file := st.file.map (fun h => { h with isClosed := true }) }

/-- Property SEGYDataLoader.total_traces: raises ValueError when the cached
value is None. -/
def LoaderState.total_traces (st : LoaderState) : Except PyErr Nat :=
  match st.cachedTotal with
  | none => .error (.valueError notOpenMsg)
  | some n => .ok n

/-- Property SEGYDataLoader.samples_per_trace: raises ValueError when the
cached value is None. -/
def LoaderState.samples_per_trace (st : LoaderState) : Except PyErr Nat :=
  match st.cachedSamples with
  | none => .error (.valueError notOpenMsg)
  | some n => .ok n

/-- Property SEGYDataLoader.sample_interval: raises ValueError when the
cached value is None. -/
def LoaderState.sample_interval (st : LoaderState) : Except PyErr ℚ :=
  match st.cachedInterval with
  | none => .error (.valueError notOpenMsg)
  | some q => .ok q

/-- SEGYDataLoader.load_trace: not-open guard on the file attribute (only a
None attribute is falsy; a closed handle is not), explicit bounds check,
then the segyio read. -/
def load_trace (st : LoaderState) (trace_index : Int) : Except PyErr (List Int) :=
  match st.file with
  | none => .error (.valueError notOpenMsg)
  | some h =>
    match st.total_traces with
    | .error e => .error e
    | .ok total =>
      if trace_index < 0 ∨ (total : Int) ≤ trace_index then
        .error (.valueError (traceIdxMsg total))
      else segyioTraceGet h trace_index

/-- Loop of SEGYDataLoader.load_traces: for each index read the trace and
assign it into a zero row of width samples (numpy broadcast rules). -/
def loadLoop (h : PyHandle) (samples : Nat) : List Int → Except PyErr (List (List Int))
  | [] => .ok []
  | idx :: rest =>
    match segyioTraceGet h idx with
    | .error e => .error e
    | .ok td =>
      match npRowAssign samples td with
      | .error e => .error e
      | .ok row =>
        match loadLoop h samples rest with
        | .error e => .error e
        | .ok rs => .ok (row :: rs)

/-- SEGYDataLoader.load_traces with explicit end index (the None default is
resolved by callers): not-open guard, start and end validation, then the
row-filling loop over range(start_trace, end_trace). -/
def load_traces (st : LoaderState) (start_trace end_trace : Int) :
    Except PyErr (List (List Int)) :=
  match st.file with
  | none => .error (.valueError notOpenMsg)
  | some h =>
    match st.total_traces with
    | .error e => .error e
    | .ok total =>
      if start_trace < 0 ∨ (total : Int) ≤ start_trace then
        .error (.valueError startTraceMsg)
      else if end_trace ≤ start_trace ∨ (total : Int) < end_trace then
        .error (.valueError endTraceMsg)
      else
        match st.samples_per_trace with
        | .error e => .error e
        | .ok samples => loadLoop h samples (intRange start_trace end_trace)

/-- SEGYDataLoader.load_all_data: not-open guard (the memory warning has no
effect on the result) then load_traces(0, total_traces). -/
def load_all_data (st : LoaderState) : Except PyErr (List (List Int)) :=
  match st.file with
  | none => .error (.valueError notOpenMsg)
  | some _ =>
    match st.total_traces with
    | .error e => .error e
    | .ok total => load_traces st 0 (total : Int)

/-- SEGYDataLoader.load_depth_slice with explicit arguments: sample-range
validation against samples_per_trace first, then load_traces on the trace
range and a column slice data[:, start:end] of every returned row. -/
def load_depth_slice (st : LoaderState) (start_sample end_sample start_trace end_trace : Int) :
    Except PyErr (List (List Int)) :=
  match st.samples_per_trace with
  | .error e => .error e
  | .ok samples =>
    if start_sample < 0 ∨ (samples : Int) ≤ start_sample then
      .error (.valueError startSampleMsg)
    else if end_sample ≤ start_sample ∨ (samples : Int) < end_sample then
      .error (.valueError endSampleMsg)
    else
      match load_traces st start_trace end_trace with
      | .error e => .error e
      | .ok rows => .ok (rows.map (fun r => pySlice r start_sample end_sample))

/-- Data selection of SEGYDataLoader.get_data_statistics when no matrix is
supplied: with more than 1000 traces, load everything and keep the strided
rows [::step] with step = total // 1000; otherwise load_all_data.  The
returned matrix is the one the numpy statistics are computed from (the
descriptive statistics themselves are not modelled). -/
def get_data_statistics_rows (st : LoaderState) : Except PyErr (List (List Int)) :=
  match st.total_traces with
  | .error e => .error e
  | .ok total =>
    if 1000 < total then
      match load_traces st 0 (total : Int) with
      | .error e => .error e
      | .ok allRows => .ok (npStrideRows allRows (total / 1000))
    else load_all_data st

/-- Attribute state of an SEGYDataDivider object (data_divide.py): same
attributes as the loader, but the property accessors below never raise. -/
structure DividerState where
  file : Option PyHandle
  cachedTotal : Option Nat
  cachedSamples : Option Nat
  cachedInterval : Option ℚ
  deriving DecidableEq

/-- SEGYDataDivider.__init__: every attribute starts as None. -/
def dividerInit : DividerState := ⟨none, none, none, none⟩

/-- Property SEGYDataDivider.total_traces: returns the cached attribute as
is, so a never-opened divider yields None instead of raising. -/
def DividerState.total_traces (st : DividerState) : Option Nat := st.cachedTotal

/-- Property SEGYDataDivider.samples_per_trace: returns the cached attribute
as is, so a never-opened divider yields None instead of raising. -/
def DividerState.samples_per_trace (st : DividerState) : Option Nat := st.cachedSamples

/-- Property SEGYDataDivider.sample_interval: returns the cached attribute
as is, so a never-opened divider yields None instead of raising. -/
def DividerState.sample_interval (st : DividerState) : Option ℚ := st.cachedInterval

/-- SEGYDataDivider.divide_by_traces on an opened divider; total_traces is
the value of the self accessor.  Guard on a non-positive chunk size, then
the loop for start in range(0, total_traces, chunk): append
(start, min(start + chunk, total_traces)). -/
def divide_by_traces (total_traces : Nat) (num_traces_per_chunk : Int) :
    Except PyErr (List (Nat × Nat)) :=
  if num_traces_per_chunk ≤ 0 then .error (.valueError chunkSizeMsg)
  else .ok (divideLoop total_traces 0 total_traces num_traces_per_chunk.toNat)

/-- SEGYDataDivider.divide_by_depth on an opened divider; samples_per_trace
and sample_interval (ms) are the values of the self accessors.  Guard on a
non-positive interval, then samples_per_chunk = int(interval / sample
interval) clamped from 0 to 1, then the same loop over the sample axis.
The step loop is modelled for the positive steps the guards produce. -/
def divide_by_depth (samples_per_trace : Nat) (sample_interval : ℚ)
    (depth_interval_ms : ℚ) : Except PyErr (List (Nat × Nat)) :=
  if depth_interval_ms ≤ 0 then .error (.valueError depthIntervalMsg)
  else
    let spc : Int := pyInt (depth_interval_ms / sample_interval)
    let spc : Int := if spc = 0 then 1 else spc
    .ok (divideLoop samples_per_trace 0 samples_per_trace spc.toNat)

/-- Dictionary appended by each iteration of SEGYDataDivider.divide_by_grid. -/
structure ChunkDescriptor where
  chunk_id : Nat × Nat
  chunk_number : Nat
  trace_range : Nat × Nat
  sample_range : Nat × Nat
  time_range_ms : ℚ × ℚ
  num_traces : Nat
  num_samples : Nat
  deriving DecidableEq

/-- The descriptor built in the inner loop body of divide_by_grid from the
current indices, running counter and ranges. -/
def mkGridChunk (si : ℚ) (tIdx dIdx cnt : Nat) (t d : Nat × Nat) : ChunkDescriptor :=
  { chunk_id := (tIdx, dIdx)
    chunk_number := cnt
    trace_range := t
    sample_range := d
    time_range_ms := ((d.1 : ℚ) * si, (d.2 : ℚ) * si)
    num_traces := t.2 - t.1
    num_samples := d.2 - d.1 }

/-- Inner loop of divide_by_grid over the depth chunks, threading the
running chunk counter; returns the descriptors and the final counter. -/
def gridInner (si : ℚ) (tIdx : Nat) (t : Nat × Nat) :
    Nat → Nat → List (Nat × Nat) → List ChunkDescriptor × Nat
  | _, cnt, [] => ([], cnt)
  | dIdx, cnt, d :: ds =>
    let rest := gridInner si tIdx t (dIdx + 1) (cnt + 1) ds
    (mkGridChunk si tIdx dIdx cnt t d :: rest.1, rest.2)

/-- Outer loop of divide_by_grid over the trace chunks, threading the
counter produced by each inner loop into the next. -/
def gridOuter (si : ℚ) (dcs : List (Nat × Nat)) :
    Nat → Nat → List (Nat × Nat) → List ChunkDescriptor
  | _, _, [] => []
  | tIdx, cnt, t :: ts =>
    let inner := gridInner si tIdx t 0 cnt dcs
    inner.1 ++ gridOuter si dcs (tIdx + 1) inner.2 ts

/-- SEGYDataDivider.divide_by_grid on an opened divider: both partitions,
then the doubly nested enumeration with the sequential counter starting
at 0. -/
def divide_by_grid (total_traces samples_per_trace : Nat) (sample_interval : ℚ)
    (num_traces_per_chunk : Int) (depth_interval_ms : ℚ) :
    Except PyErr (List ChunkDescriptor) :=
  match divide_by_traces total_traces num_traces_per_chunk with
  | .error e => .error e
  | .ok tcs =>
    match divide_by_depth samples_per_trace sample_interval depth_interval_ms with
    | .error e => .error e
    | .ok dcs => .ok (gridOuter sample_interval dcs 0 0 tcs)

/-- Loop of SEGYDataDivider.extract_chunk: for each index in
range(t_start, t_end) read file.trace[idx], slice it to [s_start:s_end]
and assign the slice into a zero row of width num_samples. -/
def extractLoop (traces : List (List Int)) (numS : Nat) (s0 s1 : Int) :
    List Int → Except PyErr (List (List Int))
  | [] => .ok []
  | idx :: rest =>
    match pyTraceGet traces idx with
    | .error e => .error e
    | .ok td =>
      match npRowAssign numS (pySlice td s0 s1) with
      | .error e => .error e
      | .ok row =>
        match extractLoop traces numS s0 s1 rest with
        | .error e => .error e
        | .ok rs => .ok (row :: rs)

/-- SEGYDataDivider.extract_chunk on an opened divider whose file holds the
given traces, for trace_range (t0, t1) and sample_range (s0, s1).  There is
no bounds check in the source: np.zeros rejects negative shapes, and the
loop then reads and slices with Python index semantics. -/
def extract_chunk (traces : List (List Int)) (t0 t1 s0 s1 : Int) :
    Except PyErr (List (List Int)) :=
  let num_traces := t1 - t0
  let num_samples := s1 - s0
  if num_traces < 0 ∨ num_samples < 0 then .error (.valueError negativeDimMsg)
  else extractLoop traces num_samples.toNat s0 s1 (intRange t0 t1)

/-- Attribute state of an SEGYHeaderLoader object (header_loading.py). -/
structure HeaderLoaderState where
  file : Option PyHandle
  deriving DecidableEq

/-- SEGYHeaderLoader.__enter__ on file f. -/
def headerLoaderEnter (f : SegyFileData) : HeaderLoaderState := ⟨some ⟨f, false⟩⟩

/-- Fields of the dictionary built by SEGYHeaderLoader.load_binary_header
that get_file_info reads (the remaining fields are copied through from the
binary header and never inspected downstream). -/
structure BinHeaderInfo where
  sample_interval : ℚ
  samples_per_trace : Nat
  data_sample_format : Int
  measurement_system : Int
  deriving DecidableEq

/-- Dictionary lookup format_dict.get(code, f-string Unknown(code)) from
get_file_info. -/
def formatDictGet (code : Int) : String :=
  if code = 1 then "IBM floating point (4 bytes)"
  else if code = 2 then "4-byte integer"
  else if code = 3 then "2-byte integer"
  else if code = 5 then "IEEE floating point (4 bytes)"
  else if code = 8 then "1-byte integer"
  else "Unknown (" ++ toString code ++ ")"

/-- Dictionary lookup with default 4 used for the size estimate in
get_file_info: bytes per sample by format code. -/
def bytesPerSampleGet (code : Int) : Nat :=
  if code = 1 then 4
  else if code = 2 then 4
  else if code = 3 then 2
  else if code = 5 then 4
  else if code = 8 then 1
  else 4

/-- Dictionary lookup measurement_dict.get(code, Unknown) from get_file_info. -/
def measurementDictGet (code : Int) : String :=
  if code = 1 then "Meters"
  else if code = 2 then "Feet"
  else "Unknown"

/-- Dictionary returned by SEGYHeaderLoader.get_file_info (the
binary_header entry repeats the BinHeaderInfo fields and the filepath is
a constant string, both omitted). -/
structure FileInfo where
  total_traces : Nat
  samples_per_trace : Nat
  sample_interval_us : ℚ
  sample_interval_ms : ℚ
  total_time_depth_ms : ℚ
  data_format : String
  format_code : Int
  measurement_system : String
  total_data_size_mb : ℚ
  deriving DecidableEq

/-- SEGYHeaderLoader.load_binary_header restricted to the fields used by
get_file_info; raises when the file attribute is None. -/
def load_binary_header (st : HeaderLoaderState) : Except PyErr BinHeaderInfo :=
  match st.file with
  | none => .error (.valueError notOpenMsg)
  | some h =>
    if h.isClosed then .error (.ioError closedFileMsg)
    else .ok ⟨h.data.binIntervalUs, h.data.binSamples, h.data.binFormat, h.data.binMeasurement⟩

/-- SEGYHeaderLoader.get_file_info: not-open guard, binary header, then the
derived fields.  An unknown format code is mapped to the Unknown(code)
label and a default width of 4 bytes; no error is raised for it. -/
def get_file_info (st : HeaderLoaderState) : Except PyErr FileInfo :=
  match st.file with
  | none => .error (.valueError notOpenMsg)
  | some h =>
    match load_binary_header st with
    | .error e => .error e
    | .ok bh =>
    let sample_interval_ms := bh.sample_interval / 1000
    let total_traces := h.data.traces.length
    let format_code := bh.data_sample_format
    let bytes_per_sample := bytesPerSampleGet format_code
    .ok
      { total_traces := total_traces
        samples_per_trace := bh.samples_per_trace
        sample_interval_us := bh.sample_interval
        sample_interval_ms := sample_interval_ms
        total_time_depth_ms := (bh.samples_per_trace : ℚ) * sample_interval_ms
        data_format := formatDictGet format_code
        format_code := format_code
        measurement_system := measurementDictGet bh.measurement_system
        total_data_size_mb :=
          pyRound2 ((total_traces : ℚ) * (bh.samples_per_trace : ℚ) * (bytes_per_sample : ℚ)
            / (1024 * 1024)) }

theorem divideLoop_mem (c total : Nat) (hc : 0 < c) :
    ∀ (fuel start : Nat), ∀ r ∈ divideLoop fuel start total c,
      start ≤ r.1 ∧ r.1 < total ∧ r.2 = min (r.1 + c) total := by
  intro fuel
  induction fuel with
  | zero => intro start r hr; simp [divideLoop] at hr
  | succ fuel ih =>
    intro start r hr
    simp only [divideLoop] at hr
    by_cases h : start < total
    · rw [if_pos h] at hr
      rcases List.mem_cons.mp hr with h1 | h1
      · subst h1; exact ⟨Nat.le_refl _, h, rfl⟩
      · obtain ⟨h2, h3, h4⟩ := ih (start + c) r h1
        exact ⟨by omega, h3, h4⟩
    · rw [if_neg h] at hr
      simp at hr

theorem divideLoop_cover (c total : Nat) (hc : 0 < c) :
    ∀ (fuel start : Nat), total ≤ start + fuel * c →
      ∀ x : Nat, (∃ r ∈ divideLoop fuel start total c, r.1 ≤ x ∧ x < r.2) ↔
        (start ≤ x ∧ x < total) := by
  intro fuel
  induction fuel with
  | zero =>
    intro start hf x
    simp only [Nat.zero_mul, Nat.add_zero] at hf
    simp [divideLoop]
    omega
  | succ fuel ih =>
    intro start hf x
    rw [Nat.succ_mul] at hf
    have hf2 : total ≤ (start + c) + fuel * c := by omega
    simp only [divideLoop]
    by_cases h : start < total
    · rw [if_pos h]
      constructor
      · rintro ⟨r, hr, hx1, hx2⟩
        rcases List.mem_cons.mp hr with h1 | h1
        · subst h1
          simp only at hx1 hx2
          omega
        · have := (ih (start + c) hf2 x).mp ⟨r, h1, hx1, hx2⟩
          omega
      · intro hx
        by_cases hx2 : x < min (start + c) total
        · exact ⟨(start, min (start + c) total), List.mem_cons_self _ _, by omega, hx2⟩
        · have hrest : start + c ≤ x ∧ x < total := by omega
          obtain ⟨r, hr, h1, h2⟩ := (ih (start + c) hf2 x).mpr hrest
          exact ⟨r, List.mem_cons_of_mem _ hr, h1, h2⟩
    · rw [if_neg h]
      simp
      omega

theorem divideLoop_pairwise (c total : Nat) (hc : 0 < c) :
    ∀ (fuel start : Nat),
      (divideLoop fuel start total c).Pairwise (fun a b => a.2 ≤ b.1 ∧ a.1 < b.1) := by
  intro fuel
  induction fuel with
  | zero => intro start; simp [divideLoop]
  | succ fuel ih =>
    intro start
    simp only [divideLoop]
    by_cases h : start < total
    · rw [if_pos h]
      refine List.pairwise_cons.mpr ⟨?_, ih (start + c)⟩
      intro r hr
      obtain ⟨h1, h2, h3⟩ := divideLoop_mem c total hc fuel (start + c) r hr
      refine ⟨?_, ?_⟩ <;> simp only <;> omega
    · rw [if_neg h]
      simp

theorem divideLoop_ne_nil (c total fuel start : Nat) :
    divideLoop (fuel + 1) start total c ≠ [] ↔ start < total := by
  simp only [divideLoop]
  by_cases h : start < total
  · rw [if_pos h]; simp [h]
  · rw [if_neg h]; simp [h]

theorem divideLoop_dropLast (c total : Nat) :
    ∀ (fuel start : Nat), ∀ r ∈ (divideLoop fuel start total c).dropLast,
      r.2 = r.1 + c := by
  intro fuel
  induction fuel with
  | zero => intro start r hr; simp [divideLoop] at hr
  | succ fuel ih =>
    intro start r hr
    simp only [divideLoop] at hr
    by_cases h : start < total
    · rw [if_pos h] at hr
      cases hdl : divideLoop fuel (start + c) total c with
      | nil => rw [hdl] at hr; simp at hr
      | cons a tl =>
        rw [hdl] at hr
        rw [List.dropLast_cons₂] at hr
        rcases List.mem_cons.mp hr with h1 | h1
        · subst h1
          have hlt : start + c < total := by
            cases fuel with
            | zero => simp [divideLoop] at hdl
            | succ fuel2 =>
              exact (divideLoop_ne_nil c total fuel2 (start + c)).mp (by rw [hdl]; simp)
          simp only
          omega
        · rw [← hdl] at h1
          exact ih (start + c) r h1
    · rw [if_neg h] at hr
      simp at hr

theorem divideLoop_length_one (total : Nat) :
    ∀ (fuel start : Nat), total ≤ start + fuel →
      (divideLoop fuel start total 1).length = total - start := by
  intro fuel
  induction fuel with
  | zero => intro start h; simp [divideLoop]; omega
  | succ fuel ih =>
    intro start h
    simp only [divideLoop]
    by_cases hs : start < total
    · rw [if_pos hs]
      simp [ih (start + 1) (by omega)]
      omega
    · rw [if_neg hs]
      simp
      omega

theorem divideLoop_head (c total fuel : Nat) (h0 : 0 < total) (hf : 0 < fuel) :
    (divideLoop fuel 0 total c).head? = some (0, min c total) := by
  cases fuel with
  | zero => omega
  | succ fuel => simp [divideLoop, h0]

/-- Claim C1: for every total_traces and every chunk_size > 0,
divide_by_traces returns the ordered list of half-open ranges of length
chunk_size starting at 0, the last truncated at total_traces: the result
covers [0, total_traces) exactly, is pairwise disjoint and ordered by
start ascending, every range except possibly the last has length
chunk_size, and for total_traces = 137, chunk_size = 23 the result is
[(0,23),(23,46),(46,69),(69,92),(92,115),(115,137)]. -/
theorem claim_C1 (total : Nat) (chunk : Int) (hc : 0 < chunk) :
    (∃ cs, divide_by_traces total chunk = .ok cs ∧
      (∀ x : Nat, (∃ r ∈ cs, r.1 ≤ x ∧ x < r.2) ↔ x < total) ∧
      cs.Pairwise (fun a b => a.2 ≤ b.1 ∧ a.1 < b.1) ∧
      (∀ r ∈ cs.dropLast, r.2 - r.1 = chunk.toNat) ∧
      (∀ r ∈ cs, r.1 < r.2 ∧ r.2 = min (r.1 + chunk.toNat) total) ∧
      (0 < total → cs.head? = some (0, min chunk.toNat total))) ∧
    divide_by_traces 137 23 =
      .ok [(0, 23), (23, 46), (46, 69), (69, 92), (92, 115), (115, 137)] := by
  have hc2 : 0 < chunk.toNat := by omega
  have hfuel : total ≤ 0 + total * chunk.toNat := by
    have := Nat.le_mul_of_pos_right total hc2
    omega
  constructor
  · refine ⟨divideLoop total 0 total chunk.toNat, ?_, ?_, ?_, ?_, ?_, ?_⟩
    · simp only [divide_by_traces, if_neg (by omega : ¬ chunk ≤ 0)]
    · intro x
      have h := divideLoop_cover chunk.toNat total hc2 total 0 hfuel x
      simpa using h
    · exact divideLoop_pairwise _ _ hc2 _ _
    · intro r hr
      have := divideLoop_dropLast chunk.toNat total total 0 r hr
      omega
    · intro r hr
      obtain ⟨h1, h2, h3⟩ := divideLoop_mem _ total hc2 total 0 r hr
      exact ⟨by omega, h3⟩
    · intro h0
      exact divideLoop_head _ _ _ h0 (by omega)
  · rfl

/-- Witness for claim C1 at total_traces = 137, chunk_size = 23. -/
theorem claim_C1_witness :
    (0 : Int) < 23 ∧
    ((∃ cs, divide_by_traces 137 23 = .ok cs ∧
      (∀ x : Nat, (∃ r ∈ cs, r.1 ≤ x ∧ x < r.2) ↔ x < 137) ∧
      cs.Pairwise (fun a b => a.2 ≤ b.1 ∧ a.1 < b.1) ∧
      (∀ r ∈ cs.dropLast, r.2 - r.1 = (23 : Int).toNat) ∧
      (∀ r ∈ cs, r.1 < r.2 ∧ r.2 = min (r.1 + (23 : Int).toNat) 137) ∧
      (0 < 137 → cs.head? = some (0, min (23 : Int).toNat 137))) ∧
    divide_by_traces 137 23 =
      .ok [(0, 23), (23, 46), (46, 69), (69, 92), (92, 115), (115, 137)]) :=
  ⟨by decide, claim_C1 137 23 (by decide)⟩

theorem divide_by_depth_eq (samples : Nat) (si interval : ℚ)
    (hsi : 0 < si) (hi : 0 < interval) :
    divide_by_depth samples si interval =
      .ok (divideLoop samples 0 samples (max 1 (Int.toNat ⌊interval / si⌋))) := by
  have hq : 0 ≤ interval / si := le_of_lt (div_pos hi hsi)
  have h0 : 0 ≤ ⌊interval / si⌋ := Int.floor_nonneg.mpr hq
  have hspc : (if ⌊interval / si⌋ = 0 then (1 : Int) else ⌊interval / si⌋).toNat
      = max 1 (Int.toNat ⌊interval / si⌋) := by
    by_cases h : ⌊interval / si⌋ = 0
    · rw [if_pos h, h]
      rfl
    · rw [if_neg h]
      omega
  simp only [divide_by_depth, if_neg (not_le.mpr hi), pyInt, if_pos hq, hspc]

/-- Claim C3: for positive sample_interval_ms and interval_ms,
divide_by_depth partitions [0, samples_per_trace) into consecutive,
pairwise disjoint half-open ranges of length
max(1, floor(interval_ms / sample_interval_ms)) with the last range
truncated; when interval_ms < sample_interval_ms every chunk has exactly
one sample and the number of chunks equals samples_per_trace. -/
theorem claim_C3 (samples : Nat) (si interval : ℚ) (hsi : 0 < si) (hi : 0 < interval) :
    ∃ cs, divide_by_depth samples si interval = .ok cs ∧
      (∀ x : Nat, (∃ r ∈ cs, r.1 ≤ x ∧ x < r.2) ↔ x < samples) ∧
      cs.Pairwise (fun a b => a.2 ≤ b.1 ∧ a.1 < b.1) ∧
      (∀ r ∈ cs.dropLast, r.2 - r.1 = max 1 (Int.toNat ⌊interval / si⌋)) ∧
      (∀ r ∈ cs, r.1 < r.2 ∧
        r.2 = min (r.1 + max 1 (Int.toNat ⌊interval / si⌋)) samples) ∧
      (interval < si → (∀ r ∈ cs, r.2 - r.1 = 1) ∧ cs.length = samples) := by
  have hq : 0 ≤ interval / si := le_of_lt (div_pos hi hsi)
  set c := max 1 (Int.toNat ⌊interval / si⌋) with hcdef
  have hc : 0 < c := by omega
  have hfuel : samples ≤ 0 + samples * c := by
    have := Nat.le_mul_of_pos_right samples hc
    omega
  refine ⟨divideLoop samples 0 samples c, divide_by_depth_eq samples si interval hsi hi,
    ?_, ?_, ?_, ?_, ?_⟩
  · intro x
    have h := divideLoop_cover c samples hc samples 0 hfuel x
    simpa using h
  · exact divideLoop_pairwise _ _ hc _ _
  · intro r hr
    have := divideLoop_dropLast c samples samples 0 r hr
    omega
  · intro r hr
    obtain ⟨h1, h2, h3⟩ := divideLoop_mem _ samples hc samples 0 r hr
    exact ⟨by omega, h3⟩
  · intro hlt
    have hfloor : ⌊interval / si⌋ = 0 := by
      rw [Int.floor_eq_zero_iff]
      exact Set.mem_Ico.mpr ⟨hq, (div_lt_one hsi).mpr hlt⟩
    have hc1 : c = 1 := by
      rw [hcdef, hfloor]
      rfl
    constructor
    · intro r hr
      obtain ⟨h1, h2, h3⟩ := divideLoop_mem c samples hc samples 0 r hr
      omega
    · rw [hc1] at hfuel ⊢
      have := divideLoop_length_one samples samples 0 (by omega)
      omega

/-- Witness for claim C3 at samples_per_trace = 5, sample_interval = 2 ms,
interval = 1 ms (smaller than one sample period). -/
theorem claim_C3_witness :
    (0 : ℚ) < 2 ∧ (0 : ℚ) < 1 ∧
    (∃ cs, divide_by_depth 5 2 1 = .ok cs ∧
      (∀ x : Nat, (∃ r ∈ cs, r.1 ≤ x ∧ x < r.2) ↔ x < 5) ∧
      cs.Pairwise (fun a b => a.2 ≤ b.1 ∧ a.1 < b.1) ∧
      (∀ r ∈ cs.dropLast, r.2 - r.1 = max 1 (Int.toNat ⌊(1 : ℚ) / 2⌋)) ∧
      (∀ r ∈ cs, r.1 < r.2 ∧
        r.2 = min (r.1 + max 1 (Int.toNat ⌊(1 : ℚ) / 2⌋)) 5) ∧
      ((1 : ℚ) < 2 → (∀ r ∈ cs, r.2 - r.1 = 1) ∧ cs.length = 5)) :=
  ⟨by norm_num, by norm_num, claim_C3 5 2 1 (by norm_num) (by norm_num)⟩

theorem gridInner_snd (si : ℚ) (tIdx : Nat) (t : Nat × Nat) :
    ∀ (ds : List (Nat × Nat)) (dIdx cnt : Nat),
      (gridInner si tIdx t dIdx cnt ds).2 = cnt + ds.length := by
  intro ds
  induction ds with
  | nil => intro dIdx cnt; simp [gridInner]
  | cons d ds ih =>
    intro dIdx cnt
    simp only [gridInner, ih (dIdx + 1) (cnt + 1), List.length_cons]
    omega

theorem gridInner_fst (si : ℚ) (tIdx : Nat) (t : Nat × Nat) :
    ∀ (ds : List (Nat × Nat)) (dIdx cnt : Nat),
      (gridInner si tIdx t dIdx cnt ds).1 =
        (List.range ds.length).map
          (fun j => mkGridChunk si tIdx (dIdx + j) (cnt + j) t (ds.getD j (0, 0))) := by
  intro ds
  induction ds with
  | nil => intro dIdx cnt; simp [gridInner]
  | cons d ds ih =>
    intro dIdx cnt
    simp only [gridInner, List.length_cons, List.range_succ_eq_map, List.map_cons,
      List.map_map, List.cons.injEq]
    constructor
    · simp
    · rw [ih (dIdx + 1) (cnt + 1)]
      apply List.map_congr_left
      intro j hj
      have e1 : dIdx + 1 + j = dIdx + Nat.succ j := by omega
      have e2 : cnt + 1 + j = cnt + Nat.succ j := by omega
      simp only [Function.comp, e1, e2, List.getD_cons_succ]

theorem gridOuter_eq (si : ℚ) (dcs : List (Nat × Nat)) :
    ∀ (ts : List (Nat × Nat)) (tIdx cnt : Nat),
      gridOuter si dcs tIdx cnt ts =
        (List.range ts.length).flatMap
          (fun i => (List.range dcs.length).map
            (fun j => mkGridChunk si (tIdx + i) j (cnt + i * dcs.length + j)
              (ts.getD i (0, 0)) (dcs.getD j (0, 0)))) := by
  intro ts
  induction ts with
  | nil => intro tIdx cnt; simp [gridOuter]
  | cons t ts ih =>
    intro tIdx cnt
    simp only [gridOuter, gridInner_snd, gridInner_fst, List.length_cons,
      List.range_succ_eq_map, List.flatMap_cons, List.flatMap_map]
    congr 1
    · apply List.map_congr_left
      intro j hj
      simp [mkGridChunk]
    · rw [ih (tIdx + 1) (cnt + dcs.length)]
      apply List.flatMap_congr
      intro i hi
      apply List.map_congr_left
      intro j hj
      have e1 : tIdx + 1 + i = tIdx + Nat.succ i := by omega
      have e2 : cnt + dcs.length + i * dcs.length + j = cnt + Nat.succ i * dcs.length + j := by
        rw [Nat.succ_mul]
        omega
      simp only [Function.comp, e1, e2, List.getD_cons_succ]

/-- Claim C2: for chunk_size > 0 and interval_ms > 0 (on a file whose
sample interval is positive), divide_by_grid returns exactly the Cartesian
product of the trace partition and the depth partition in trace-major
order with chunk_number assigned sequentially from 0, so the descriptor
with chunk_id (i, j) has chunk_number i * (number of depth chunks) + j,
and each time_range_ms is the sample_range scaled by the sample interval
in milliseconds. -/
theorem claim_C2 (total samples : Nat) (si : ℚ) (chunk : Int) (interval : ℚ)
    (hc : 0 < chunk) (hi : 0 < interval) (hsi : 0 < si) :
    ∃ tcs dcs gcs,
      divide_by_traces total chunk = .ok tcs ∧
      divide_by_depth samples si interval = .ok dcs ∧
      divide_by_grid total samples si chunk interval = .ok gcs ∧
      gcs = (List.range tcs.length).flatMap
        (fun i => (List.range dcs.length).map
          (fun j =>
            { chunk_id := (i, j)
              chunk_number := i * dcs.length + j
              trace_range := tcs.getD i (0, 0)
              sample_range := dcs.getD j (0, 0)
              time_range_ms := (((dcs.getD j (0, 0)).1 : ℚ) * si,
                ((dcs.getD j (0, 0)).2 : ℚ) * si)
              num_traces := (tcs.getD i (0, 0)).2 - (tcs.getD i (0, 0)).1
              num_samples := (dcs.getD j (0, 0)).2 - (dcs.getD j (0, 0)).1 })) ∧
      ∀ d ∈ gcs, d.chunk_number = d.chunk_id.1 * dcs.length + d.chunk_id.2 ∧
        d.time_range_ms = ((d.sample_range.1 : ℚ) * si, (d.sample_range.2 : ℚ) * si) ∧
        d.num_traces = d.trace_range.2 - d.trace_range.1 ∧
        d.num_samples = d.sample_range.2 - d.sample_range.1 := by
  have htr : divide_by_traces total chunk =
      .ok (divideLoop total 0 total chunk.toNat) := by
    simp only [divide_by_traces, if_neg (by omega : ¬ chunk ≤ 0)]
  have hdp := divide_by_depth_eq samples si interval hsi hi
  refine ⟨divideLoop total 0 total chunk.toNat,
    divideLoop samples 0 samples (max 1 (Int.toNat ⌊interval / si⌋)),
    gridOuter si (divideLoop samples 0 samples (max 1 (Int.toNat ⌊interval / si⌋))) 0 0
      (divideLoop total 0 total chunk.toNat), htr, hdp, ?_, ?_, ?_⟩
  · simp only [divide_by_grid, htr, hdp]
  · rw [gridOuter_eq]
    apply List.flatMap_congr
    intro i hi2
    apply List.map_congr_left
    intro j hj
    simp [mkGridChunk]
  · intro d hd
    rw [gridOuter_eq] at hd
    simp only [List.mem_flatMap, List.mem_map, List.mem_range] at hd
    obtain ⟨i, hi2, j, hj, rfl⟩ := hd
    simp [mkGridChunk]

/-- Witness for claim C2 at total = 5 traces, 4 samples per trace,
sample interval 2 ms, chunk_size = 2, interval = 4 ms. -/
theorem claim_C2_witness :
    (0 : Int) < 2 ∧ (0 : ℚ) < 4 ∧ (0 : ℚ) < 2 ∧
    (∃ tcs dcs gcs,
      divide_by_traces 5 2 = .ok tcs ∧
      divide_by_depth 4 2 4 = .ok dcs ∧
      divide_by_grid 5 4 2 2 4 = .ok gcs ∧
      gcs = (List.range tcs.length).flatMap
        (fun i => (List.range dcs.length).map
          (fun j =>
            { chunk_id := (i, j)
              chunk_number := i * dcs.length + j
              trace_range := tcs.getD i (0, 0)
              sample_range := dcs.getD j (0, 0)
              time_range_ms := (((dcs.getD j (0, 0)).1 : ℚ) * 2,
                ((dcs.getD j (0, 0)).2 : ℚ) * 2)
              num_traces := (tcs.getD i (0, 0)).2 - (tcs.getD i (0, 0)).1
              num_samples := (dcs.getD j (0, 0)).2 - (dcs.getD j (0, 0)).1 })) ∧
      ∀ d ∈ gcs, d.chunk_number = d.chunk_id.1 * dcs.length + d.chunk_id.2 ∧
        d.time_range_ms = ((d.sample_range.1 : ℚ) * 2, (d.sample_range.2 : ℚ) * 2) ∧
        d.num_traces = d.trace_range.2 - d.trace_range.1 ∧
        d.num_samples = d.sample_range.2 - d.sample_range.1) :=
  ⟨by norm_num, by norm_num, by norm_num,
    claim_C2 5 4 2 2 4 (by norm_num) (by norm_num) (by norm_num)⟩

theorem getD_mem {l : List (List Int)} {n : Nat} (h : n < l.length) :
    l.getD n [] ∈ l := by
  rw [List.getD_eq_getElem l [] h]
  exact List.getElem_mem h

theorem intRange_length (s e : Int) : (intRange s e).length = (e - s).toNat := by
  simp only [intRange, List.length_map, List.length_range]

theorem intRange_getElem? (s e : Int) (k : Nat) (hk : k < (e - s).toNat) :
    (intRange s e)[k]? = some (s + k) := by
  rw [intRange, List.getElem?_map, List.getElem?_range hk]
  rfl

theorem intRange_mem (s e : Int) : ∀ i ∈ intRange s e, s ≤ i ∧ i < e := by
  intro i hi
  simp only [intRange, List.mem_map, List.mem_range] at hi
  obtain ⟨k, hk, rfl⟩ := hi
  omega

theorem pySlice_of_bounds (l : List Int) (s e : Int) (hs : 0 ≤ s) (hse : s ≤ e)
    (he : e ≤ (l.length : Int)) :
    pySlice l s e = (l.drop s.toNat).take (e.toNat - s.toNat) := by
  simp only [pySlice]
  have e1 : (max 0 (min (l.length : Int) (if s < 0 then s + l.length else s))).toNat
      = s.toNat := by
    rw [if_neg (by omega : ¬ s < 0)]
    omega
  have e2 : (max 0 (min (l.length : Int) (if e < 0 then e + l.length else e))).toNat
      = e.toNat := by
    rw [if_neg (by omega : ¬ e < 0)]
    omega
  rw [e1, e2]

theorem pySlice_length (l : List Int) (s e : Int) (hs : 0 ≤ s) (hse : s ≤ e)
    (he : e ≤ (l.length : Int)) :
    (pySlice l s e).length = (e - s).toNat := by
  rw [pySlice_of_bounds l s e hs hse he]
  simp only [List.length_take, List.length_drop]
  omega

theorem pySlice_getD (l : List Int) (s e : Int) (hs : 0 ≤ s) (hse : s ≤ e)
    (he : e ≤ (l.length : Int)) (j : Nat) (hj : j < (e - s).toNat) :
    (pySlice l s e).getD j 0 = l.getD (s.toNat + j) 0 := by
  rw [pySlice_of_bounds l s e hs hse he]
  rw [List.getD_eq_getElem?_getD, List.getD_eq_getElem?_getD]
  rw [List.getElem?_take, if_pos (by omega), List.getElem?_drop]

theorem extractLoop_ok (traces : List (List Int)) (samples : Nat)
    (hwf : ∀ tr ∈ traces, tr.length = samples) (s0 s1 : Int)
    (hs0 : 0 ≤ s0) (hse : s0 ≤ s1) (hs1 : s1 ≤ (samples : Int)) :
    ∀ idxs : List Int, (∀ idx ∈ idxs, 0 ≤ idx ∧ idx < (traces.length : Int)) →
      extractLoop traces (s1 - s0).toNat s0 s1 idxs =
        .ok (idxs.map (fun idx => pySlice (traces.getD idx.toNat []) s0 s1)) := by
  intro idxs
  induction idxs with
  | nil => intro h; simp [extractLoop]
  | cons idx rest ih =>
    intro h
    obtain ⟨h1, h2⟩ := h idx (List.mem_cons_self _ _)
    have htrace : pyTraceGet traces idx = .ok (traces.getD idx.toNat []) := by
      simp only [pyTraceGet]
      have hj : (if idx < 0 then idx + (traces.length : Int) else idx) = idx :=
        if_neg (by omega)
      rw [hj, if_pos ⟨h1, h2⟩]
    have hmem : traces.getD idx.toNat [] ∈ traces := getD_mem (by omega)
    have hlen : ((traces.getD idx.toNat []).length : Int) = (samples : Int) := by
      rw [hwf _ hmem]
    have hrowlen : (pySlice (traces.getD idx.toNat []) s0 s1).length = (s1 - s0).toNat :=
      pySlice_length _ _ _ hs0 hse (by omega)
    have hassign : npRowAssign (s1 - s0).toNat (pySlice (traces.getD idx.toNat []) s0 s1)
        = .ok (pySlice (traces.getD idx.toNat []) s0 s1) := by
      simp only [npRowAssign]
      rw [if_pos hrowlen]
    simp only [extractLoop, htrace, hassign,
      ih (fun i hi2 => h i (List.mem_cons_of_mem _ hi2)), List.map_cons]

/-- Claim C4: for an in-bounds descriptor, extract_chunk returns a dense
matrix of shape (t1 - t0, s1 - s0) whose entry (i, j) is sample s0 + j of
trace t0 + i, built row by row in trace-then-sample order as a copy. -/
theorem claim_C4 (traces : List (List Int)) (samples : Nat)
    (hwf : ∀ tr ∈ traces, tr.length = samples) (t0 t1 s0 s1 : Int)
    (ht0 : 0 ≤ t0) (ht : t0 < t1) (ht1 : t1 ≤ (traces.length : Int))
    (hs0 : 0 ≤ s0) (hs : s0 < s1) (hs1 : s1 ≤ (samples : Int)) :
    ∃ m, extract_chunk traces t0 t1 s0 s1 = .ok m ∧
      m.length = (t1 - t0).toNat ∧
      ∀ i, i < (t1 - t0).toNat →
        (m.getD i []).length = (s1 - s0).toNat ∧
        ∀ j, j < (s1 - s0).toNat →
          (m.getD i []).getD j 0 = (traces.getD (t0.toNat + i) []).getD (s0.toNat + j) 0 := by
  have hloop := extractLoop_ok traces samples hwf s0 s1 hs0 (le_of_lt hs) hs1
    (intRange t0 t1) (fun idx hidx => by have := intRange_mem t0 t1 idx hidx; omega)
  refine ⟨(intRange t0 t1).map (fun idx => pySlice (traces.getD idx.toNat []) s0 s1),
    ?_, ?_, ?_⟩
  · simp only [extract_chunk]
    rw [if_neg (by omega : ¬ (t1 - t0 < 0 ∨ s1 - s0 < 0))]
    exact hloop
  · simp [intRange_length]
  · intro i hi
    have hmi : ((intRange t0 t1).map
          (fun idx => pySlice (traces.getD idx.toNat []) s0 s1)).getD i []
        = pySlice (traces.getD (t0 + (i : Int)).toNat []) s0 s1 := by
      rw [List.getD_eq_getElem?_getD, List.getElem?_map, intRange_getElem? t0 t1 i (by omega)]
      rfl
    have htn : (t0 + (i : Int)).toNat = t0.toNat + i := by omega
    rw [hmi, htn]
    have hmem : traces.getD (t0.toNat + i) [] ∈ traces := getD_mem (by omega)
    have hlen : (s1 : Int) ≤ ((traces.getD (t0.toNat + i) []).length : Int) := by
      rw [hwf _ hmem]
      exact hs1
    exact ⟨pySlice_length _ _ _ hs0 (le_of_lt hs) hlen,
      fun j hj => pySlice_getD _ _ _ hs0 (le_of_lt hs) hlen j hj⟩

/-- Witness for claim C4: a 3-trace file with 3 samples per trace and the
in-bounds descriptor trace_range (1, 3), sample_range (1, 3). -/
theorem claim_C4_witness :
    (∀ tr ∈ [[1, 2, 3], [4, 5, 6], [7, 8, 9]], tr.length = 3) ∧
    (∃ m, extract_chunk [[1, 2, 3], [4, 5, 6], [7, 8, 9]] 1 3 1 3 = .ok m ∧
      m.length = ((3 : Int) - 1).toNat ∧
      ∀ i, i < ((3 : Int) - 1).toNat →
        (m.getD i []).length = ((3 : Int) - 1).toNat ∧
        ∀ j, j < ((3 : Int) - 1).toNat →
          (m.getD i []).getD j 0 =
            (([[1, 2, 3], [4, 5, 6], [7, 8, 9]] : List (List Int)).getD
              ((1 : Int).toNat + i) []).getD ((1 : Int).toNat + j) 0) :=
  ⟨by decide,
    claim_C4 [[1, 2, 3], [4, 5, 6], [7, 8, 9]] 3 (by decide) 1 3 1 3
      (by decide) (by decide) (by decide) (by decide) (by decide) (by decide)⟩

/-- Counterexample to claim C5: the out-of-bounds descriptor with
trace_range (-1, 0) and sample_range (0, 2) on a 2-trace file is served by
extract_chunk with a data matrix (the last trace, via negative-index
wrap-around) instead of any range error. -/
theorem claim_C5_cex :
    extract_chunk [[10, 11], [20, 21]] (-1) 0 0 2 = .ok [[20, 21]] ∧ (-1 : Int) < 0 :=
  ⟨rfl, by decide⟩

/-- Amended claim C5: extract_chunk performs no bounds check; a descriptor
with trace_range (-1, 0) (out of bounds) and an in-bounds sample_range
returns a one-row data matrix read from the last trace of the file through
negative-index wrap-around, rather than failing with a range error. -/
theorem claim_C5_amended (traces : List (List Int)) (samples : Nat)
    (hne : traces ≠ []) (hwf : ∀ tr ∈ traces, tr.length = samples)
    (s0 s1 : Int) (hs0 : 0 ≤ s0) (hse : s0 ≤ s1) (hs1 : s1 ≤ (samples : Int)) :
    extract_chunk traces (-1) 0 s0 s1 =
      .ok [pySlice (traces.getD (traces.length - 1) []) s0 s1] := by
  have hlen : 0 < traces.length := List.length_pos.mpr hne
  have hrange : intRange (-1) 0 = [-1] := rfl
  have htrace : pyTraceGet traces (-1) = .ok (traces.getD (traces.length - 1) []) := by
    simp only [pyTraceGet]
    have hj : (if (-1 : Int) < 0 then -1 + (traces.length : Int) else -1)
        = (traces.length : Int) - 1 := by
      rw [if_pos (by omega)]
      ring
    rw [hj, if_pos (by omega : 0 ≤ (traces.length : Int) - 1 ∧
      (traces.length : Int) - 1 < (traces.length : Int))]
    have e : ((traces.length : Int) - 1).toNat = traces.length - 1 := by omega
    rw [e]
  have hmem : traces.getD (traces.length - 1) [] ∈ traces := getD_mem (by omega)
  have hlen2 : (s1 : Int) ≤ ((traces.getD (traces.length - 1) []).length : Int) := by
    rw [hwf _ hmem]
    exact hs1
  have hrowlen : (pySlice (traces.getD (traces.length - 1) []) s0 s1).length
      = (s1 - s0).toNat := pySlice_length _ _ _ hs0 hse hlen2
  have hassign : npRowAssign (s1 - s0).toNat (pySlice (traces.getD (traces.length - 1) []) s0 s1)
      = .ok (pySlice (traces.getD (traces.length - 1) []) s0 s1) := by
    simp only [npRowAssign]
    rw [if_pos hrowlen]
  simp only [extract_chunk]
  rw [if_neg (by omega : ¬ ((0 : Int) - -1 < 0 ∨ s1 - s0 < 0))]
  rw [hrange]
  simp only [extractLoop, htrace, hassign]

/-- Witness for the amended claim C5 on a concrete 2-trace file. -/
theorem claim_C5_amended_witness :
    ([[10, 11], [20, 21]] : List (List Int)) ≠ [] ∧
    extract_chunk [[10, 11], [20, 21]] (-1) 0 0 2 =
      .ok [pySlice (([[10, 11], [20, 21]] : List (List Int)).getD (2 - 1) []) 0 2] :=
  ⟨by decide,
    claim_C5_amended [[10, 11], [20, 21]] 2 (by decide) (by decide) 0 2
      (by decide) (by decide) (by decide)⟩

/-- Counterexample to claim C6: on a file whose binary-header format code
is 6 (not one of 1, 2, 3, 5, 8), get_file_info returns a successful info
dictionary labelling the format Unknown (6) and sizing it with the default
4-byte width, instead of surfacing any UnsupportedFormat error. -/
theorem claim_C6_cex :
    get_file_info ⟨some ⟨⟨[[0, 0], [0, 0]], 2, 2000, 6, 1⟩, false⟩⟩ =
      .ok { total_traces := 2
            samples_per_trace := 2
            sample_interval_us := 2000
            sample_interval_ms := 2
            total_time_depth_ms := 4
            data_format := "Unknown (6)"
            format_code := 6
            measurement_system := "Meters"
            total_data_size_mb := 0 } ∧
    (6 : Int) ∉ ([1, 2, 3, 5, 8] : List Int) := by
  constructor
  · simp only [get_file_info, load_binary_header]
    norm_num [formatDictGet, bytesPerSampleGet, measurementDictGet, pyRound2, roundHalfEven,
      FileInfo.mk.injEq]
    decide
  · decide

/-- Amended claim C6: for every open file whose format code is outside
the known set, get_file_info succeeds, labels the format with the
Unknown (code) string, and silently uses the default 4-byte sample width
for the size estimate; no error is surfaced. -/
theorem claim_C6_amended (f : SegyFileData)
    (h1 : f.binFormat ≠ 1) (h2 : f.binFormat ≠ 2) (h3 : f.binFormat ≠ 3)
    (h5 : f.binFormat ≠ 5) (h8 : f.binFormat ≠ 8) :
    get_file_info (headerLoaderEnter f) =
      .ok { total_traces := f.traces.length
            samples_per_trace := f.binSamples
            sample_interval_us := f.binIntervalUs
            sample_interval_ms := f.binIntervalUs / 1000
            total_time_depth_ms := (f.binSamples : ℚ) * (f.binIntervalUs / 1000)
            data_format := "Unknown (" ++ toString f.binFormat ++ ")"
            format_code := f.binFormat
            measurement_system := measurementDictGet f.binMeasurement
            total_data_size_mb :=
              pyRound2 ((f.traces.length : ℚ) * (f.binSamples : ℚ) * 4 / (1024 * 1024)) } := by
  simp only [get_file_info, headerLoaderEnter, load_binary_header, Bool.false_eq_true,
    if_false, formatDictGet, bytesPerSampleGet,
    if_neg h1, if_neg h2, if_neg h3, if_neg h5, if_neg h8]
  norm_num [FileInfo.mk.injEq]

/-- Witness for the amended claim C6 at the concrete format-6 file. -/
theorem claim_C6_amended_witness :
    (6 : Int) ≠ 1 ∧
    get_file_info (headerLoaderEnter ⟨[[0, 0], [0, 0]], 2, 2000, 6, 1⟩) =
      .ok { total_traces := 2
            samples_per_trace := 2
            sample_interval_us := 2000
            sample_interval_ms := (2000 : ℚ) / 1000
            total_time_depth_ms := ((2 : Nat) : ℚ) * ((2000 : ℚ) / 1000)
            data_format := "Unknown (" ++ toString (6 : Int) ++ ")"
            format_code := 6
            measurement_system := measurementDictGet 1
            total_data_size_mb :=
              pyRound2 (((2 : Nat) : ℚ) * ((2 : Nat) : ℚ) * 4 / (1024 * 1024)) } :=
  ⟨by decide,
    claim_C6_amended ⟨[[0, 0], [0, 0]], 2, 2000, 6, 1⟩
      (by decide) (by decide) (by decide) (by decide) (by decide)⟩

theorem intRange_cons (s e : Int) (h : s < e) :
    intRange s e = s :: intRange (s + 1) e := by
  have hn : (e - s).toNat = (e - (s + 1)).toNat + 1 := by omega
  rw [intRange, hn, List.range_succ_eq_map, List.map_cons, List.map_map]
  refine List.cons_eq_cons.mpr ⟨by simp, ?_⟩
  rw [intRange]
  apply List.map_congr_left
  intro k hk
  simp only [Function.comp_apply]
  push_cast
  ring

/-- Counterexample to claim C7: on a 1-trace file opened and then closed by
the context manager, every read reaches the released byte source and fails
with the IOError the closed handle raises there, not with the ValueError
the module itself uses as its closed-resource (file-not-open) signal. -/
theorem claim_C7_cex :
    load_trace (loaderExit (loaderEnter ⟨[[1, 2]], 2, 2000, 5, 1⟩)) 0 =
        .error (.ioError closedFileMsg) ∧
    load_traces (loaderExit (loaderEnter ⟨[[1, 2]], 2, 2000, 5, 1⟩)) 0 1 =
        .error (.ioError closedFileMsg) ∧
    load_depth_slice (loaderExit (loaderEnter ⟨[[1, 2]], 2, 2000, 5, 1⟩)) 0 2 0 1 =
        .error (.ioError closedFileMsg) ∧
    PyErr.ioError closedFileMsg ≠ PyErr.valueError notOpenMsg :=
  ⟨rfl, rfl, rfl, by decide⟩

/-- Amended claim C7: after close() the file attribute still holds the (now
closed) handle, so the not-open guard of the module does not fire; each
read operation with in-range arguments proceeds to the released byte
source and fails with the closed-handle IOError raised there rather than
with a typed closed-resource check of the module itself. -/
theorem claim_C7_amended (f : SegyFileData) (i t0 t1 s0 s1 : Int)
    (hi0 : 0 ≤ i) (hi1 : i < (f.traces.length : Int))
    (ht0 : 0 ≤ t0) (ht : t0 < t1) (ht1 : t1 ≤ (f.traces.length : Int))
    (hs0 : 0 ≤ s0) (hs : s0 < s1) (hs1 : s1 ≤ (f.binSamples : Int)) :
    (loaderExit (loaderEnter f)).file = some ⟨f, true⟩ ∧
    load_trace (loaderExit (loaderEnter f)) i = .error (.ioError closedFileMsg) ∧
    load_traces (loaderExit (loaderEnter f)) t0 t1 = .error (.ioError closedFileMsg) ∧
    load_depth_slice (loaderExit (loaderEnter f)) s0 s1 t0 t1 =
      .error (.ioError closedFileMsg) := by
  have hfile : (loaderExit (loaderEnter f)).file = some ⟨f, true⟩ := rfl
  have htot : (loaderExit (loaderEnter f)).total_traces = .ok f.traces.length := rfl
  have hsamp : (loaderExit (loaderEnter f)).samples_per_trace = .ok f.binSamples := rfl
  have hlt : load_traces (loaderExit (loaderEnter f)) t0 t1 =
      .error (.ioError closedFileMsg) := by
    simp only [load_traces, hfile, htot, hsamp]
    rw [if_neg (by omega : ¬ (t0 < 0 ∨ (f.traces.length : Int) ≤ t0))]
    rw [if_neg (by omega : ¬ (t1 ≤ t0 ∨ (f.traces.length : Int) < t1))]
    rw [intRange_cons t0 t1 ht]
    rfl
  refine ⟨rfl, ?_, hlt, ?_⟩
  · simp only [load_trace, hfile, htot]
    rw [if_neg (by omega : ¬ (i < 0 ∨ (f.traces.length : Int) ≤ i))]
    rfl
  · simp only [load_depth_slice, hsamp]
    rw [if_neg (by omega : ¬ (s0 < 0 ∨ (f.binSamples : Int) ≤ s0))]
    rw [if_neg (by omega : ¬ (s1 ≤ s0 ∨ (f.binSamples : Int) < s1))]
    rw [hlt]

/-- Witness for the amended claim C7 on a concrete 1-trace file. -/
theorem claim_C7_amended_witness :
    (0 : Int) ≤ 0 ∧
    ((loaderExit (loaderEnter ⟨[[1, 2]], 2, 2000, 5, 1⟩)).file =
        some ⟨⟨[[1, 2]], 2, 2000, 5, 1⟩, true⟩ ∧
      load_trace (loaderExit (loaderEnter ⟨[[1, 2]], 2, 2000, 5, 1⟩)) 0 =
        .error (.ioError closedFileMsg) ∧
      load_traces (loaderExit (loaderEnter ⟨[[1, 2]], 2, 2000, 5, 1⟩)) 0 1 =
        .error (.ioError closedFileMsg) ∧
      load_depth_slice (loaderExit (loaderEnter ⟨[[1, 2]], 2, 2000, 5, 1⟩)) 0 2 0 1 =
        .error (.ioError closedFileMsg)) :=
  ⟨by decide,
    claim_C7_amended ⟨[[1, 2]], 2, 2000, 5, 1⟩ 0 0 1 0 2
      (by decide) (by decide) (by decide) (by decide) (by decide)
      (by decide) (by decide) (by decide)⟩

theorem pyTraceGet_ok (traces : List (List Int)) (idx : Int) (h1 : 0 ≤ idx)
    (h2 : idx < (traces.length : Int)) :
    pyTraceGet traces idx = .ok (traces.getD idx.toNat []) := by
  simp only [pyTraceGet]
  have hj : (if idx < 0 then idx + (traces.length : Int) else idx) = idx := if_neg (by omega)
  rw [hj, if_pos ⟨h1, h2⟩]

/-- Claim C8: on an open file, load_trace fails with the index-out-of-range
ValueError exactly when the index is negative or at least total_traces (and
returns the trace otherwise); load_depth_slice fails with a sample-range
ValueError whenever the requested sample range violates
0 ≤ start < end ≤ samples_per_trace; and divide_by_traces fails with the
invalid-argument ValueError exactly when the chunk size is non-positive. -/
theorem claim_C8 (f : SegyFileData) (i s0 s1 t0 t1 : Int) (total : Nat) (chunk : Int) :
    (load_trace (loaderEnter f) i = .error (.valueError (traceIdxMsg f.traces.length))
        ↔ (i < 0 ∨ (f.traces.length : Int) ≤ i)) ∧
    (¬ (i < 0 ∨ (f.traces.length : Int) ≤ i) →
        load_trace (loaderEnter f) i = .ok (f.traces.getD i.toNat [])) ∧
    (¬ (0 ≤ s0 ∧ s0 < s1 ∧ s1 ≤ (f.binSamples : Int)) →
      load_depth_slice (loaderEnter f) s0 s1 t0 t1 = .error (.valueError startSampleMsg) ∨
      load_depth_slice (loaderEnter f) s0 s1 t0 t1 = .error (.valueError endSampleMsg)) ∧
    (divide_by_traces total chunk = .error (.valueError chunkSizeMsg) ↔ chunk ≤ 0) := by
  have hfile : (loaderEnter f).file = some ⟨f, false⟩ := rfl
  have htot : (loaderEnter f).total_traces = .ok f.traces.length := rfl
  have hsamp : (loaderEnter f).samples_per_trace = .ok f.binSamples := rfl
  have hok : ¬ (i < 0 ∨ (f.traces.length : Int) ≤ i) →
      load_trace (loaderEnter f) i = .ok (f.traces.getD i.toNat []) := by
    intro hb
    simp only [load_trace, hfile, htot]
    rw [if_neg hb]
    exact pyTraceGet_ok f.traces i (by omega) (by omega)
  refine ⟨?_, hok, ?_, ?_⟩
  · by_cases hb : i < 0 ∨ (f.traces.length : Int) ≤ i
    · simp only [load_trace, hfile, htot, if_pos hb]
      simpa using hb
    · rw [hok hb]
      simp [hb]
  · intro hbad
    simp only [load_depth_slice, hsamp]
    by_cases h1 : s0 < 0 ∨ (f.binSamples : Int) ≤ s0
    · left
      rw [if_pos h1]
    · right
      rw [if_neg h1, if_pos (by omega : s1 ≤ s0 ∨ (f.binSamples : Int) < s1)]
  · constructor
    · intro heq
      by_contra hc
      simp only [divide_by_traces] at heq
      rw [if_neg hc] at heq
      exact absurd heq (by simp)
    · intro hc
      simp only [divide_by_traces, if_pos hc]

/-- Witness for claim C8 on a 1-trace file with out-of-range index 5,
invalid sample range (-1, 1) and chunk size 0. -/
theorem claim_C8_witness :
    (load_trace (loaderEnter ⟨[[1, 2]], 2, 2000, 5, 1⟩) 5 =
        .error (.valueError (traceIdxMsg 1)) ↔ ((5 : Int) < 0 ∨ (1 : Int) ≤ 5)) ∧
    (¬ ((5 : Int) < 0 ∨ (1 : Int) ≤ 5) →
        load_trace (loaderEnter ⟨[[1, 2]], 2, 2000, 5, 1⟩) 5 =
          .ok (([[1, 2]] : List (List Int)).getD (5 : Int).toNat [])) ∧
    (¬ (0 ≤ (-1 : Int) ∧ (-1 : Int) < 1 ∧ (1 : Int) ≤ 2) →
      load_depth_slice (loaderEnter ⟨[[1, 2]], 2, 2000, 5, 1⟩) (-1) 1 0 1 =
          .error (.valueError startSampleMsg) ∨
        load_depth_slice (loaderEnter ⟨[[1, 2]], 2, 2000, 5, 1⟩) (-1) 1 0 1 =
          .error (.valueError endSampleMsg)) ∧
    (divide_by_traces 7 0 = .error (.valueError chunkSizeMsg) ↔ (0 : Int) ≤ 0) :=
  claim_C8 ⟨[[1, 2]], 2, 2000, 5, 1⟩ 5 (-1) 1 0 1 7 0

theorem loadLoop_ok (f : SegyFileData) (hwf : ∀ tr ∈ f.traces, tr.length = f.binSamples) :
    ∀ idxs : List Int, (∀ idx ∈ idxs, 0 ≤ idx ∧ idx < (f.traces.length : Int)) →
      loadLoop ⟨f, false⟩ f.binSamples idxs =
        .ok (idxs.map (fun idx => f.traces.getD idx.toNat [])) := by
  intro idxs
  induction idxs with
  | nil => intro h; simp [loadLoop]
  | cons idx rest ih =>
    intro h
    obtain ⟨h1, h2⟩ := h idx (List.mem_cons_self _ _)
    have htrace : segyioTraceGet ⟨f, false⟩ idx = .ok (f.traces.getD idx.toNat []) :=
      pyTraceGet_ok f.traces idx h1 h2
    have hmem : f.traces.getD idx.toNat [] ∈ f.traces := getD_mem (by omega)
    have hassign : npRowAssign f.binSamples (f.traces.getD idx.toNat [])
        = .ok (f.traces.getD idx.toNat []) := by
      simp only [npRowAssign]
      rw [if_pos (hwf _ hmem)]
    simp only [loadLoop, htrace, hassign, ih (fun j hj => h j (List.mem_cons_of_mem _ hj)),
      List.map_cons]

theorem map_getD_intRange (l : List (List Int)) :
    (intRange 0 (l.length : Int)).map (fun idx => l.getD idx.toNat []) = l := by
  apply List.ext_getElem?
  intro n
  by_cases hn : n < l.length
  · rw [List.getElem?_map, intRange_getElem? 0 (l.length : Int) n (by omega)]
    simp only [Option.map_some']
    rw [List.getElem?_eq_getElem hn]
    have he : ((0 : Int) + (n : Int)).toNat = n := by omega
    rw [he, List.getD_eq_getElem l [] hn]
  · have h1 : l[n]? = none := List.getElem?_eq_none (by omega)
    have h2 : ((intRange 0 (l.length : Int)).map (fun idx => l.getD idx.toNat []))[n]? = none :=
      List.getElem?_eq_none (by rw [List.length_map, intRange_length]; omega)
    rw [h1, h2]

theorem load_traces_full (f : SegyFileData) (hwf : ∀ tr ∈ f.traces, tr.length = f.binSamples)
    (hpos : 0 < f.traces.length) :
    load_traces (loaderEnter f) 0 (f.traces.length : Int) = .ok f.traces := by
  have hfile : (loaderEnter f).file = some ⟨f, false⟩ := rfl
  have htot : (loaderEnter f).total_traces = .ok f.traces.length := rfl
  have hsamp : (loaderEnter f).samples_per_trace = .ok f.binSamples := rfl
  simp only [load_traces, hfile, htot, hsamp]
  rw [if_neg (by omega : ¬ ((0 : Int) < 0 ∨ (f.traces.length : Int) ≤ 0))]
  rw [if_neg (by omega :
    ¬ ((f.traces.length : Int) ≤ 0 ∨ (f.traces.length : Int) < (f.traces.length : Int)))]
  rw [loadLoop_ok f hwf (intRange 0 (f.traces.length : Int))
    (fun idx hidx => by have := intRange_mem _ _ idx hidx; omega)]
  rw [map_getD_intRange]

theorem lt_ceilDiv_iff (a b k : Nat) (hb : 0 < b) :
    k < (a + b - 1) / b ↔ k * b < a := by
  by_cases ha : a = 0
  · subst ha
    rw [Nat.div_eq_of_lt (by omega)]
    omega
  · rw [Nat.lt_iff_add_one_le, Nat.le_div_iff_mul_le hb, Nat.succ_mul]
    omega

/-- Counterexample to claim C9: a file with zero traces (0 ≤ 1000) does not
have its statistics computed over all traces — the all-traces load fails
with the start-trace range ValueError instead. -/
theorem claim_C9_cex :
    get_data_statistics_rows (loaderEnter ⟨[], 0, 2000, 5, 1⟩) =
      .error (.valueError startTraceMsg) ∧ (0 : Nat) ≤ 1000 :=
  ⟨rfl, by decide⟩

/-- Amended claim C9: when no matrix is supplied and total_traces > 1000,
the statistics matrix holds exactly the traces at indices 0, step, 2·step,
... with step = total_traces / 1000 (k·step ranges over [0, total));
when 0 < total_traces ≤ 1000 it holds all traces of the file; a file with
zero traces fails with the start-trace range error instead. -/
theorem claim_C9_amended (f : SegyFileData)
    (hwf : ∀ tr ∈ f.traces, tr.length = f.binSamples) :
    (1000 < f.traces.length →
      get_data_statistics_rows (loaderEnter f) =
        .ok ((List.range ((f.traces.length + f.traces.length / 1000 - 1) /
              (f.traces.length / 1000))).map
          (fun k => f.traces.getD (k * (f.traces.length / 1000)) [])) ∧
      (∀ k : Nat, k < (f.traces.length + f.traces.length / 1000 - 1) /
            (f.traces.length / 1000) ↔ k * (f.traces.length / 1000) < f.traces.length)) ∧
    (0 < f.traces.length → f.traces.length ≤ 1000 →
      get_data_statistics_rows (loaderEnter f) = .ok f.traces) := by
  have htot : (loaderEnter f).total_traces = .ok f.traces.length := rfl
  have hfile : (loaderEnter f).file = some ⟨f, false⟩ := rfl
  constructor
  · intro hbig
    have hstep : 0 < f.traces.length / 1000 := Nat.div_pos (by omega) (by omega)
    constructor
    · simp only [get_data_statistics_rows, htot]
      rw [if_pos hbig, load_traces_full f hwf (by omega)]
      rfl
    · intro k
      exact lt_ceilDiv_iff f.traces.length (f.traces.length / 1000) k hstep
  · intro hpos hsmall
    simp only [get_data_statistics_rows, htot]
    rw [if_neg (by omega)]
    simp only [load_all_data, hfile, htot]
    exact load_traces_full f hwf hpos

/-- Witness for the amended claim C9 on a concrete 1-trace file (the all-
traces branch). -/
theorem claim_C9_witness :
    (∀ tr ∈ ([[1, 2]] : List (List Int)), tr.length = 2) ∧
    ((1000 < 1 →
      get_data_statistics_rows (loaderEnter ⟨[[1, 2]], 2, 2000, 5, 1⟩) =
        .ok ((List.range ((1 + 1 / 1000 - 1) / (1 / 1000))).map
          (fun k => ([[1, 2]] : List (List Int)).getD (k * (1 / 1000)) [])) ∧
      (∀ k : Nat, k < (1 + 1 / 1000 - 1) / (1 / 1000) ↔ k * (1 / 1000) < 1)) ∧
    ((0 : Nat) < 1 → (1 : Nat) ≤ 1000 →
      get_data_statistics_rows (loaderEnter ⟨[[1, 2]], 2, 2000, 5, 1⟩) =
        .ok [[1, 2]])) :=
  ⟨by decide, claim_C9_amended ⟨[[1, 2]], 2, 2000, 5, 1⟩ (by decide)⟩

/-- Claim C10: the never-opened divider returns None from all three
metadata accessors, while the never-opened loader raises the not-open
ValueError from the same-named accessors. -/
theorem claim_C10 :
    DividerState.total_traces dividerInit = none ∧
    DividerState.samples_per_trace dividerInit = none ∧
    DividerState.sample_interval dividerInit = none ∧
    LoaderState.total_traces loaderInit = .error (.valueError notOpenMsg) ∧
    LoaderState.samples_per_trace loaderInit = .error (.valueError notOpenMsg) ∧
    LoaderState.sample_interval loaderInit = .error (.valueError notOpenMsg) :=
  ⟨rfl, rfl, rfl, rfl, rfl, rfl⟩

end Seismic
